import Mathlib

/-!
Verification of the MLA-Quiz markdown question parsing pipeline and
answer/progress tracker, as a shallow embedding of the Python sources
(`src/app.py`, `src/api/index.py`, `src/archive/main.py`) over `List Char`.

Conventions:
* Python strings are `List Char`; regex engines are embedded as explicit,
  deterministic character-level matchers that mirror the backtracking
  behaviour of the specific patterns used by the sources.
* Python exceptions (e.g. `IndexError`) are modelled by `Option`.
-/

namespace MLAQuiz

/-- Python `\s` for ASCII text: space, tab, newline, vertical tab, form feed,
carriage return. -/
def isSpaceB (c : Char) : Bool :=
  c == ' ' || c == '\t' || c == '\n' || c == '\x0b' || c == '\x0c' || c == '\r'

/-- Python `\d` (ASCII). -/
def isDigitB (c : Char) : Bool :=
  '0' ≤ c && c ≤ '9'

/-- Python `[A-Z]` without `re.IGNORECASE`. -/
def isUpperB (c : Char) : Bool :=
  'A' ≤ c && c ≤ 'Z'

/-- Python `[A-Z]` under `re.IGNORECASE` (ASCII letters). -/
def isAsciiLetterB (c : Char) : Bool :=
  ('A' ≤ c && c ≤ 'Z') || ('a' ≤ c && c ≤ 'z')

/-- Python `str.strip()`: drop whitespace from both ends. -/
def pythonStrip (s : List Char) : List Char :=
  ((s.dropWhile isSpaceB).reverse.dropWhile isSpaceB).reverse

/-- Consume a case-sensitive literal, returning the remaining suffix. -/
def eatLit : List Char → List Char → Option (List Char)
  | [], s => some s
  | _ :: _, [] => none
  | c :: cs, d :: ds => if d == c then eatLit cs ds else none

/-- Consume a literal case-insensitively (the literal is given in lower case),
returning the remaining suffix.  Mirrors `re.IGNORECASE` literal matching for
ASCII text. -/
def eatLitCI : List Char → List Char → Option (List Char)
  | [], s => some s
  | _ :: _, [] => none
  | c :: cs, d :: ds => if d.toLower == c then eatLitCI cs ds else none

theorem eatLit_length (lit : List Char) :
    ∀ s r, eatLit lit s = some r → r.length + lit.length = s.length := by
  induction lit with
  | nil => intro s r h; simp [eatLit] at h; simp [h]
  | cons c cs ih =>
    intro s r h
    match s with
    | [] => simp [eatLit] at h
    | d :: ds =>
      simp only [eatLit] at h
      by_cases hd : d == c
      · simp [hd] at h
        have := ih ds r h
        simp [List.length_cons]
        omega
      · simp [hd] at h

theorem eatLitCI_length (lit : List Char) :
    ∀ s r, eatLitCI lit s = some r → r.length + lit.length = s.length := by
  induction lit with
  | nil => intro s r h; simp [eatLitCI] at h; simp [h]
  | cons c cs ih =>
    intro s r h
    match s with
    | [] => simp [eatLitCI] at h
    | d :: ds =>
      simp only [eatLitCI] at h
      by_cases hd : d.toLower == c
      · simp [hd] at h
        have := ih ds r h
        simp [List.length_cons]
        omega
      · simp [hd] at h

theorem dropWhile_length_le (p : Char → Bool) (s : List Char) :
    (s.dropWhile p).length ≤ s.length := by
  induction s with
  | nil => simp
  | cons c cs ih =>
    by_cases h : p c
    · simp [List.dropWhile, h]; omega
    · simp [List.dropWhile, h]

/-- An optional case-insensitive literal (regex `(?:lit)?`), consumed greedily. -/
def skipOptCI (lit : List Char) (s : List Char) : List Char :=
  match eatLitCI lit s with
  | some r => r
  | none => s

theorem skipOptCI_length_le (lit s : List Char) :
    (skipOptCI lit s).length ≤ s.length := by
  unfold skipOptCI
  split
  · rename_i r h
    have := eatLitCI_length _ _ _ h
    omega
  · exact Nat.le_refl _

/-! ## Answer-key extraction (claim C1)

`src/api/index.py` line 123:
  `re.search(r'\*\*Ans(?:wer)?(?::\*\*|\*\*:|:\*\*|\*\*)\s*([A-Z])\.?', tail_content, re.IGNORECASE)`

`src/archive/main.py` line 1127:
  `re.search(r'\*\*Ans(?:wer)?\*\*:\s*([A-Z])\.?', tail, re.IGNORECASE)`

The serverless pattern tolerates the colon inside or outside the closing
bold marker (and even a missing colon); the archive pattern requires the
colon outside (`**Answer**:`). The optional `(?:wer)?` and the trailing
`\.?` never require backtracking for these patterns (after `Ans` no
alternative of the colon group can start with `w`, and `\.?` is trailing),
so a deterministic matcher is faithful. -/

/-- The colon group of the serverless answer pattern:
`(?::\*\*|\*\*:|:\*\*|\*\*)`, alternatives tried left to right. -/
def eatColonApi (s : List Char) : Option (List Char) :=
  match eatLit ":**".toList s with
  | some r => some r
  | none =>
    match eatLit "**:".toList s with
    | some r => some r
    | none => eatLit "**".toList s

/-- The colon group of the archive answer pattern: literal `\*\*:`. -/
def eatColonArchive (s : List Char) : Option (List Char) :=
  eatLit "**:".toList s

/-- Attempt the serverless answer pattern at the head of `s`; returns the
captured letter (uppercased, as `answer_match.group(1).upper()`).  The
trailing `\.?` consumes an optional period after the letter and does not
affect the capture. -/
def matchAnsApiAt (s : List Char) : Option Char :=
  match eatLit "**".toList s with
  | none => none
  | some s1 =>
    match eatLitCI "ans".toList s1 with
    | none => none
    | some s2 =>
      match eatColonApi (skipOptCI "wer".toList s2) with
      | none => none
      | some s4 =>
        match s4.dropWhile isSpaceB with
        | [] => none
        | c :: _ => if isAsciiLetterB c then some c.toUpper else none

/-- Attempt the archive answer pattern at the head of `s`. -/
def matchAnsArchiveAt (s : List Char) : Option Char :=
  match eatLit "**".toList s with
  | none => none
  | some s1 =>
    match eatLitCI "ans".toList s1 with
    | none => none
    | some s2 =>
      match eatColonArchive (skipOptCI "wer".toList s2) with
      | none => none
      | some s4 =>
        match s4.dropWhile isSpaceB with
        | [] => none
        | c :: _ => if isAsciiLetterB c then some c.toUpper else none

/-- `re.search` with the serverless answer pattern: leftmost match wins. -/
def searchAnsApi : List Char → Option Char
  | [] => none
  | c :: cs =>
    match matchAnsApiAt (c :: cs) with
    | some l => some l
    | none => searchAnsApi cs

/-- `re.search` with the archive answer pattern: leftmost match wins. -/
def searchAnsArchive : List Char → Option Char
  | [] => none
  | c :: cs =>
    match matchAnsArchiveAt (c :: cs) with
    | some l => some l
    | none => searchAnsArchive cs

/-! ## Investigations marker (claims C5, C6)

`src/app.py` line 82 (and `src/archive/main.py` line 1063):
  `investigation_pattern = r'\*\*Investigations?(?::\*\*|\*\*:)\s*'` (IGNORECASE)

After the literal `Investigation` the optional `s?` is committed
deterministically: if greedy consumption of `s` makes the colon group fail,
the backtracked attempt places the colon group at the `s` itself, and no
alternative of the group starts with `s`, so backtracking never helps. -/

/-- Colon group `(?::\*\*|\*\*:)` of the investigations pattern. -/
def eatColonInv (s : List Char) : Option (List Char) :=
  match eatLit ":**".toList s with
  | some r => some r
  | none => eatLit "**:".toList s

theorem eatColonInv_length {s r : List Char} (h : eatColonInv s = some r) :
    r.length + 3 = s.length := by
  unfold eatColonInv at h
  split at h
  · rename_i r' h1
    simp only [Option.some.injEq] at h
    subst h
    simpa using eatLit_length _ _ _ h1
  · simpa using eatLit_length _ _ _ h

/-- Attempt the investigations pattern at the head of `s`; on success returns
the suffix after the match (the trailing `\s*` is consumed greedily). -/
def matchInvAt (s : List Char) : Option (List Char) :=
  match eatLit "**".toList s with
  | none => none
  | some s1 =>
    match eatLitCI "investigation".toList s1 with
    | none => none
    | some s2 =>
      match eatColonInv (skipOptCI "s".toList s2) with
      | none => none
      | some s4 => some (s4.dropWhile isSpaceB)

theorem matchInvAt_length {s r : List Char} (h : matchInvAt s = some r) :
    r.length < s.length := by
  unfold matchInvAt at h
  split at h
  · exact absurd h (by simp)
  rename_i s1 h1
  split at h
  · exact absurd h (by simp)
  rename_i s2 h2
  split at h
  · exact absurd h (by simp)
  rename_i s4 h4
  simp only [Option.some.injEq] at h
  subst h
  have l1 := eatLit_length _ _ _ h1
  have l2 := eatLitCI_length _ _ _ h2
  have l3 := skipOptCI_length_le "s".toList s2
  have l4 := eatColonInv_length h4
  have l5 := dropWhile_length_le isSpaceB s4
  simp at l1 l2
  omega

/-- Does `re.search` find the investigations pattern anywhere in `s`? -/
def searchInv : List Char → Bool
  | [] => false
  | c :: cs => (matchInvAt (c :: cs)).isSome || searchInv cs

/-- Fuelled worker for `re.sub` with the investigations pattern.  By
`matchInvAt_length` every step strictly shrinks the text, so fuel equal to
the text length never runs out (structural recursion is used so that the
definition reduces inside the kernel). -/
def subInvWithFuel (repl : List Char) : Nat → List Char → List Char
  | _, [] => []
  | 0, _ :: _ => []
  | fuel + 1, c :: cs =>
    match matchInvAt (c :: cs) with
    | some r => repl ++ subInvWithFuel repl fuel r
    | none => c :: subInvWithFuel repl fuel cs

/-- `re.sub(investigation_pattern, repl, s)`: replace every non-overlapping
match, scanning left to right. -/
def subInvWith (repl s : List Char) : List Char :=
  subInvWithFuel repl s.length s

/-- `src/app.py` lines 80-89: locate the first part containing the
investigations marker and return `re.sub(pattern, '', part).strip()`. -/
def extractInvApp (part : List Char) : Option (List Char) :=
  if searchInv part then some (pythonStrip (subInvWith [] part)) else none

/-! ## Generic string helpers (Python `str` methods) -/

/-- Python `y.startswith(x)` on `List Char`. -/
def startsWithSeq (pat s : List Char) : Bool :=
  (eatLit pat s).isSome

/-- Python `x in y` (substring containment). -/
def containsSeq (pat : List Char) : List Char → Bool
  | [] => pat.isEmpty
  | c :: cs => startsWithSeq pat (c :: cs) || containsSeq pat cs

/-- Index of the first occurrence of `pat` in `s`. -/
def findSeq (pat : List Char) : List Char → Option Nat
  | [] => if pat.isEmpty then some 0 else none
  | c :: cs =>
    if startsWithSeq pat (c :: cs) then some 0
    else (findSeq pat cs).map (· + 1)

theorem findSeq_bound {pat s : List Char} {i : Nat} (h : findSeq pat s = some i) :
    i + pat.length ≤ s.length := by
  induction s generalizing i with
  | nil =>
    unfold findSeq at h
    split at h
    · rename_i hp
      simp at h hp
      simp [h, hp]
    · exact absurd h (by simp)
  | cons c cs ih =>
    unfold findSeq at h
    split at h
    · rename_i hs
      simp at h
      subst h
      unfold startsWithSeq at hs
      cases he : eatLit pat (c :: cs) with
      | none => rw [he] at hs; simp at hs
      | some r =>
        have := eatLit_length _ _ _ he
        simp at this ⊢
        omega
    · cases hf : findSeq pat cs with
      | none => rw [hf] at h; simp at h
      | some j =>
        rw [hf] at h
        simp at h
        subst h
        have := ih hf
        simp at this ⊢
        omega

/-- Fuelled worker for `str.split('\n\n')`.  By `findSeq_bound` every
separator found strictly shrinks the text by at least two characters, so
fuel equal to the text length never runs out. -/
def splitDoubleNlFuel : Nat → List Char → List (List Char)
  | 0, s => [s]
  | fuel + 1, s =>
    match findSeq "\n\n".toList s with
    | none => [s]
    | some i => s.take i :: splitDoubleNlFuel fuel (s.drop (i + 2))

/-- Python `s.split('\n\n')` (plain `str.split`, exact separator). -/
def splitDoubleNl (s : List Char) : List (List Char) :=
  splitDoubleNlFuel s.length s

/-- Digits-to-number, Python `int(num)` for a nonempty digit string. -/
def natOfDigits (l : List Char) : Nat :=
  l.foldl (fun a c => a * 10 + (c.toNat - '0'.toNat)) 0

/-! ## `re.split(r'\n\s*\n', rest, maxsplit=4)`

The separator regex matches a newline, then a greedy run of whitespace that
(after backtracking) ends just before a final newline; so a separator is a
newline whose following whitespace run contains another newline, and it
extends through the *last* newline of that run. -/

/-- Index of the last `'\n'` in `l` (meaningful only when one exists). -/
def idxOfLastNl (l : List Char) : Nat :=
  l.length - 1 - (l.reverse.findIdx (fun c => c == '\n'))

/-- Leftmost match of `\n\s*\n` in `s`: start index and matched length. -/
def findSep : List Char → Option (Nat × Nat)
  | [] => none
  | c :: cs =>
    if c == '\n' then
      let run := cs.takeWhile isSpaceB
      if run.contains '\n' then some (0, 1 + idxOfLastNl run + 1)
      else (findSep cs).map (fun il => (il.1 + 1, il.2))
    else (findSep cs).map (fun il => (il.1 + 1, il.2))

/-- `re.split(r'\n\s*\n', s, maxsplit)`. -/
def splitBlank (s : List Char) : Nat → List (List Char)
  | 0 => [s]
  | m + 1 =>
    match findSep s with
    | none => [s]
    | some il => s.take il.1 :: splitBlank (s.drop (il.1 + il.2)) m

/-! ## Question-header match (claims C5, C7)

All parser variants start with
  `m = re.match(r'###\s*(\d+)\.\s*(.*?)\n(.*)', block, re.DOTALL)`.
After the literal period, `\s*` is greedy and `(.*?)` is lazy (with DOTALL,
`.` crosses newlines), so the engine first takes the maximal whitespace run;
if no newline remains after it, the run backtracks to end at its own last
newline (titles become empty); if the runs contains no newline at all, the
match fails. -/

/-- `re.match(r'###\s*(\d+)\.\s*(.*?)\n(.*)', block, re.DOTALL)`:
returns `(num, title, rest)` on success. -/
def headerMatch (block : List Char) : Option (List Char × List Char × List Char) :=
  match eatLit "###".toList block with
  | none => none
  | some r1 =>
    let r2 := r1.dropWhile isSpaceB
    let num := r2.takeWhile isDigitB
    if num.isEmpty then none
    else
      match r2.drop num.length with
      | '.' :: r3 =>
        let p0 := r3.takeWhile isSpaceB
        let s1 := r3.drop p0.length
        if s1.contains '\n' then
          let title := s1.takeWhile (fun c => c != '\n')
          some (num, title, s1.drop (title.length + 1))
        else if p0.contains '\n' then
          some (num, [], (r3.reverse.takeWhile (fun c => c != '\n')).reverse)
        else none
      | _ => none

/-! ## The PWA question block parser (`src/app.py`, `PWAQuizLoader._parse_question`) -/

/-- The question record built by `src/app.py` (options are stored as
rendered strings `"A) text"`, the correct answer as an index). -/
structure AppQuestion where
  id : Nat
  title : List Char
  specialty : List Char
  scenario : List Char
  investigations : List Char
  prompt : List Char
  options : List (List Char)
  correctAnswer : Option Nat
  explanations : List (List Char)
deriving DecidableEq, Repr

/-- `re.match(r'^([A-Z])[.)]\s*(.*)', line)` on an already-stripped line:
letter plus `.` or `)`, then the remainder with leading whitespace dropped. -/
def lineOptMatch (line : List Char) : Option (Char × List Char) :=
  match line with
  | a :: d :: r =>
    if isUpperB a && (d == '.' || d == ')') then some (a, r.dropWhile isSpaceB)
    else none
  | _ => none

/-- Python `text.lower()`. -/
def lowerList (l : List Char) : List Char :=
  l.map Char.toLower

/-- `any(marker in text.lower() for marker in ['correct', 'âœ“', '*correct*'])`. -/
def hasCorrectMarker (text : List Char) : Bool :=
  containsSeq "correct".toList (lowerList text) ||
  containsSeq "âœ“".toList (lowerList text) ||
  containsSeq "*correct*".toList (lowerList text)

/-- One line of the option-extraction loop (`src/app.py` lines 117-131);
the state is `(current_options ++ options-so-far view, explanations, correct_answer)`
restricted to the current part: `(current_options, current_explanations, correct_answer)`. -/
def appProcessLine (st : List (List Char) × List (List Char) × Option Nat)
    (line0 : List Char) : List (List Char) × List (List Char) × Option Nat :=
  let line := pythonStrip line0
  match lineOptMatch line with
  | some ld =>
    let newOpts := st.1 ++ [ld.1 :: ')' :: ' ' :: ld.2]
    let corr := if hasCorrectMarker ld.2 then some (newOpts.length - 1) else st.2.2
    (newOpts, st.2.1, corr)
  | none =>
    if startsWithSeq "Explanation:".toList line || startsWithSeq "Answer:".toList line
    then (st.1, st.2.1 ++ [line], st.2.2)
    else st

/-- One part of the option-extraction loop (`src/app.py` lines 112-135):
options/explanations of a part are kept only when the part produced at
least one option; the `correct_answer` assignment always persists. -/
def appProcessPart (acc : List (List Char) × List (List Char) × Option Nat)
    (part : List Char) : List (List Char) × List (List Char) × Option Nat :=
  let lines := (pythonStrip part).splitOn '\n'
  let res := lines.foldl appProcessLine ([], [], acc.2.2)
  if res.1.isEmpty then (acc.1, acc.2.1, res.2.2)
  else (acc.1 ++ res.1, acc.2.1 ++ res.2.1, res.2.2)

/-- `PWAQuizLoader._parse_question(block, specialty)` from `src/app.py`
lines 63-164, embedded one statement at a time. -/
def appParseQuestion (block : List Char) (specialty : List Char) : Option AppQuestion :=
  if block.isEmpty then none
  else if ¬ startsWithSeq "###".toList (pythonStrip block) then none
  else
    match headerMatch block with
    | none => none
    | some ntr =>
      let num := ntr.1
      let title := ntr.2.1
      let rest := ntr.2.2
      let parts := ((splitBlank rest 4).map pythonStrip).filter (fun p => ¬ p.isEmpty)
      let scenario0 := parts.headD []
      let invIdx := parts.findIdx? (fun p => searchInv p)
      let investigations := match invIdx with
        | some i => pythonStrip (subInvWith [] (parts.getD i []))
        | none => []
      let defPrompt := "What is the most likely diagnosis?".toList
      let sp1 : List Char × List Char × Nat :=
        match invIdx with
        | some i =>
          if i + 1 < parts.length then (scenario0, parts.getD (i + 1) [], i + 2)
          else
            let spc := splitDoubleNl scenario0
            if 1 < spc.length then
              (List.intercalate "\n\n".toList spc.dropLast, spc.getLastD [], 1)
            else (scenario0, defPrompt, 1)
        | none =>
          if 2 ≤ parts.length then (scenario0, parts.getD 1 [], 2)
          else (scenario0, defPrompt, 1)
      let acc := (parts.drop sp1.2.2).foldl appProcessPart ([], [], none)
      let fb : List (List Char) × List Char :=
        if acc.1.isEmpty ∧ ¬ sp1.2.1.isEmpty then
          let pl := (sp1.2.1.splitOn '\n').map pythonStrip
          let optLines := pl.filter (fun l => (lineOptMatch l).isSome)
          let nonOpt := pl.filter (fun l => ¬ (lineOptMatch l).isSome)
          if ¬ optLines.isEmpty then (optLines, pythonStrip (List.intercalate ['\n'] nonOpt))
          else (acc.1, sp1.2.1)
        else (acc.1, sp1.2.1)
      some {
        id := natOfDigits num
        title := pythonStrip title
        specialty := specialty
        scenario := sp1.1
        investigations := investigations
        prompt := fb.2
        options := fb.1
        correctAnswer := acc.2.2
        explanations := acc.2.1 }

/-! ## The GUI question block parser (`src/archive/main.py`, `QuizLoader._parse_question`)

Option extraction (line 1106) uses
  `re.findall(r'^[ \t]*([A-Z])\.\s+(.*?)(?=\n[ \t]*[A-Z]\.|\n\s*\*\*|\n\s*$)', tail, re.MULTILINE | re.DOTALL)`.
With `\s+` greedy (maximal run of length `w`) and `(.*?)` lazy, the engine
first looks for the smallest lookahead position `q ≥ w`; if none exists it
backtracks `\s+` downwards, which succeeds at the largest `q < w` whose
position satisfies the lookahead (the capture is then empty). -/

/-- Lookahead alternative `\n[ \t]*[A-Z]\.`. -/
def lookOptA (v : List Char) : Bool :=
  match v with
  | '\n' :: t =>
    match t.dropWhile (fun c => c == ' ' || c == '\t') with
    | a :: d :: _ => isUpperB a && d == '.'
    | _ => false
  | _ => false

/-- Lookahead alternative `\n\s*\*\*`. -/
def lookOptB (v : List Char) : Bool :=
  match v with
  | '\n' :: t => startsWithSeq "**".toList (t.dropWhile isSpaceB)
  | _ => false

/-- Lookahead alternative `\n\s*$` under `re.MULTILINE`: the newline is
followed by whitespace reaching another newline or the end of the string. -/
def lookOptC (v : List Char) : Bool :=
  match v with
  | '\n' :: t => (t.takeWhile isSpaceB).contains '\n' || (t.dropWhile isSpaceB).isEmpty
  | _ => false

def lookOpt (v : List Char) : Bool :=
  lookOptA v || lookOptB v || lookOptC v

/-- Attempt the option pattern at a line start; returns
`(letter, captured text, consumed length)`. -/
def tryOptMatchAt (s : List Char) : Option (Char × List Char × Nat) :=
  let ind := (s.takeWhile (fun c => c == ' ' || c == '\t')).length
  match s.drop ind with
  | a :: '.' :: u =>
    if isUpperB a then
      let w := (u.takeWhile isSpaceB).length
      if w == 0 then none
      else
        match (List.range' w (u.length + 1 - w)).find? (fun q => lookOpt (u.drop q)) with
        | some q => some (a, (u.take q).drop w, ind + 2 + q)
        | none =>
          match ((List.range' 1 (w - 1)).reverse).find? (fun q => lookOpt (u.drop q)) with
          | some q => some (a, [], ind + 2 + q)
          | none => none
    else none
  | _ => none

theorem tryOptMatchAt_bounds {s : List Char} {r : Char × List Char × Nat}
    (h : tryOptMatchAt s = some r) : 1 ≤ r.2.2 ∧ r.2.2 ≤ s.length := by
  simp only [tryOptMatchAt] at h
  split at h
  case h_2 => exact absurd h (by simp)
  rename_i a' u heq
  split at h
  case isFalse => exact absurd h (by simp)
  rename_i hup
  split at h
  case isTrue => exact absurd h (by simp)
  rename_i hw
  have hind : (s.takeWhile (fun c => c == ' ' || c == '\t')).length ≤ s.length := by
    simpa using (List.takeWhile_sublist _).length_le
  have hsl : s.length = (s.takeWhile (fun c => c == ' ' || c == '\t')).length + 2 + u.length := by
    have hdl : (s.drop (s.takeWhile (fun c => c == ' ' || c == '\t')).length).length
        = s.length - (s.takeWhile (fun c => c == ' ' || c == '\t')).length := by
      simp
    rw [heq] at hdl
    simp at hdl
    omega
  have hwu : (u.takeWhile isSpaceB).length ≤ u.length := by
    simpa using (List.takeWhile_sublist _).length_le
  split at h
  · rename_i q hq
    have hmem := List.mem_of_find?_eq_some hq
    rw [List.mem_range'] at hmem
    obtain ⟨i, hi, hqe⟩ := hmem
    injection h with h'
    subst h'
    dsimp only
    omega
  · split at h
    · rename_i q hq
      have hmem := List.mem_of_find?_eq_some hq
      rw [List.mem_reverse, List.mem_range'] at hmem
      obtain ⟨i, hi, hqe⟩ := hmem
      injection h with h'
      subst h'
      dsimp only
      omega
    · exact absurd h (by simp)

/-- Fuelled `re.findall` scan for the option pattern: try a match at every
position that begins a line (`re.MULTILINE` anchor), continuing after each
match.  By `tryOptMatchAt_bounds` every step strictly shrinks the text, so
fuel equal to the text length never runs out. -/
def scanOptsFuel : Nat → List Char → Bool → List (Char × List Char)
  | _, [], _ => []
  | 0, _ :: _, _ => []
  | fuel + 1, c :: cs, atLS =>
    if atLS then
      match tryOptMatchAt (c :: cs) with
      | some ltk =>
        (ltk.1, ltk.2.1) ::
          scanOptsFuel fuel ((c :: cs).drop ltk.2.2)
            (((c :: cs).getD (ltk.2.2 - 1) ' ') == '\n')
      | none => scanOptsFuel fuel cs (c == '\n')
    else scanOptsFuel fuel cs (c == '\n')

def optFindAll (tail : List Char) : List (Char × List Char) :=
  scanOptsFuel tail.length tail true

/-- `re.match(r'^([A-Z])\.\s*(.*)$', ln)` used by the fallback pass. -/
def lineDotMatch (line : List Char) : Option (Char × List Char) :=
  match line with
  | a :: '.' :: r => if isUpperB a then some (a, r.dropWhile isSpaceB) else none
  | _ => none

/-- One line of the archive fallback accumulation (lines 1112-1124):
state is `(buffer, committed options)`. -/
def fallbackLine (st : Option (Char × List (List Char)) × List (Char × List Char))
    (ln : List Char) : Option (Char × List (List Char)) × List (Char × List Char) :=
  match lineDotMatch ln with
  | some lt =>
    let acc := match st.1 with
      | some bf =>
        if ¬ bf.2.isEmpty then st.2 ++ [(bf.1, pythonStrip (List.intercalate [' '] bf.2))]
        else st.2
      | none => st.2
    (some (lt.1, [lt.2]), acc)
  | none =>
    match st.1 with
    | some bf => (some (bf.1, bf.2 ++ [ln]), st.2)
    | none => st

/-- Archive multi-line option accumulation fallback (fires when the findall
pass produced fewer than two options). -/
def optFallback (tail : List Char) : List (Char × List Char) :=
  let lines := (tail.splitOn '\n').map pythonStrip
  let res := lines.foldl fallbackLine (none, [])
  match res.1 with
  | some bf =>
    if ¬ bf.2.isEmpty then res.2 ++ [(bf.1, pythonStrip (List.intercalate [' '] bf.2))]
    else res.2
  | none => res.2

/-! ### Explanation, in-question specialty, and image extraction -/

/-- Stop positions of the lazy explanation capture:
`(?=\n-{3,}|\n\*\*\s*End Explanation\s*\*\*|$)` (no `re.MULTILINE`, so `$`
is the end of the string or just before a trailing newline). -/
def stopExpl (v : List Char) : Bool :=
  (match v with
   | '\n' :: t => startsWithSeq "---".toList t
   | _ => false) ||
  (match v with
   | '\n' :: t =>
     match eatLit "**".toList t with
     | some t1 =>
       match eatLitCI "end explanation".toList (t1.dropWhile isSpaceB) with
       | some t2 => startsWithSeq "**".toList (t2.dropWhile isSpaceB)
       | none => false
     | none => false
   | _ => false) ||
  v.isEmpty || v == ['\n']

/-- Attempt `\*\*(?:Explanation|Rationale)\*\*:\s*(.*?)(?=...)` (IGNORECASE,
DOTALL) at the head of `s`, returning the raw capture. -/
def matchExplAt (s : List Char) : Option (List Char) :=
  match eatLit "**".toList s with
  | none => none
  | some s1 =>
    match (match eatLitCI "explanation".toList s1 with
           | some r => some r
           | none => eatLitCI "rationale".toList s1) with
    | none => none
    | some s2 =>
      match eatLit "**:".toList s2 with
      | none => none
      | some u =>
        let w := (u.takeWhile isSpaceB).length
        let q := ((List.range' w (u.length + 1 - w)).find?
          (fun q => stopExpl (u.drop q))).getD u.length
        some ((u.take q).drop w)

def searchExpl : List Char → Option (List Char)
  | [] => none
  | c :: cs =>
    match matchExplAt (c :: cs) with
    | some e => some e
    | none => searchExpl cs

/-- Stop positions of the in-question specialty capture `(?=\n|$)`. -/
def stopSpec (v : List Char) : Bool :=
  v.isEmpty || v.headD ' ' == '\n'

/-- Attempt `(?:\*\*Specialty\*\*|## Specialty):\s*(.*?)(?=\n|$)` (IGNORECASE)
at the head of `s`. -/
def matchSpecInQAt (s : List Char) : Option (List Char) :=
  match (match eatLitCI "**specialty**".toList s with
         | some r => some r
         | none => eatLitCI "## specialty".toList s) with
  | none => none
  | some s1 =>
    match eatLit ":".toList s1 with
    | none => none
    | some u =>
      let w := (u.takeWhile isSpaceB).length
      let q := ((List.range' w (u.length + 1 - w)).find?
        (fun q => stopSpec (u.drop q))).getD u.length
      some ((u.take q).drop w)

def searchSpecInQ : List Char → Option (List Char)
  | [] => none
  | c :: cs =>
    match matchSpecInQAt (c :: cs) with
    | some v => some v
    | none => searchSpecInQ cs

/-- Attempt `\[IMAGE:\s*([^\]]+)\]` (IGNORECASE) at the head of `s`,
returning `(capture, consumed length)`. -/
def matchCustomImgAt (s : List Char) : Option (List Char × Nat) :=
  match eatLitCI "[image:".toList s with
  | none => none
  | some u0 =>
    let w := (u0.takeWhile isSpaceB).length
    let u1 := u0.drop w
    let inner := u1.takeWhile (fun c => c != ']')
    if inner.isEmpty then none
    else
      match u1.drop inner.length with
      | ']' :: _ => some (inner, 7 + w + inner.length + 1)
      | _ => none

theorem matchCustomImgAt_pos {s : List Char} {r : List Char × Nat}
    (h : matchCustomImgAt s = some r) : 1 ≤ r.2 := by
  simp only [matchCustomImgAt] at h
  split at h
  · exact absurd h (by simp)
  split at h
  · exact absurd h (by simp)
  split at h
  · injection h with h'
    subst h'
    dsimp only
    omega
  · exact absurd h (by simp)

/-- Fuelled `re.findall(r'\[IMAGE:\s*([^\]]+)\]', block, re.IGNORECASE)`.
By `matchCustomImgAt_pos` every step strictly shrinks the text, so fuel
equal to the text length never runs out. -/
def scanCustomImgsFuel : Nat → List Char → List (List Char)
  | _, [] => []
  | 0, _ :: _ => []
  | fuel + 1, c :: cs =>
    match matchCustomImgAt (c :: cs) with
    | some ck => ck.1 :: scanCustomImgsFuel fuel ((c :: cs).drop ck.2)
    | none => scanCustomImgsFuel fuel cs

def scanCustomImgs (block : List Char) : List (List Char) :=
  scanCustomImgsFuel block.length block

/-- Attempt `!\[([^\]]*)\]\(([^)]+)\)` at the head of `s`. -/
def matchMdImgAt (s : List Char) : Option ((List Char × List Char) × Nat) :=
  match eatLit "![".toList s with
  | none => none
  | some u0 =>
    let alt := u0.takeWhile (fun c => c != ']')
    match u0.drop alt.length with
    | ']' :: '(' :: u1 =>
      let path := u1.takeWhile (fun c => c != ')')
      if path.isEmpty then none
      else
        match u1.drop path.length with
        | ')' :: _ => some ((alt, path), 2 + alt.length + 2 + path.length + 1)
        | _ => none
    | _ => none

theorem matchMdImgAt_pos {s : List Char} {r : (List Char × List Char) × Nat}
    (h : matchMdImgAt s = some r) : 1 ≤ r.2 := by
  simp only [matchMdImgAt] at h
  split at h
  · exact absurd h (by simp)
  split at h
  case h_2 => exact absurd h (by simp)
  split at h
  · exact absurd h (by simp)
  split at h
  · injection h with h'
    subst h'
    dsimp only
    omega
  · exact absurd h (by simp)

/-- Fuelled `re.findall(r'!\[([^\]]*)\]\(([^)]+)\)', block)`.
By `matchMdImgAt_pos` every step strictly shrinks the text, so fuel equal
to the text length never runs out. -/
def scanMdImgsFuel : Nat → List Char → List (List Char × List Char)
  | _, [] => []
  | 0, _ :: _ => []
  | fuel + 1, c :: cs =>
    match matchMdImgAt (c :: cs) with
    | some apk => apk.1 :: scanMdImgsFuel fuel ((c :: cs).drop apk.2)
    | none => scanMdImgsFuel fuel cs

def scanMdImgs (block : List Char) : List (List Char × List Char) :=
  scanMdImgsFuel block.length block

/-- The question record built by `QuizLoader._parse_question`
(`src/archive/main.py` lines 1153-1163). -/
structure ArchiveQuestion where
  number : List Char
  title : List Char
  scenario : List Char
  questionPrompt : List Char
  options : List (Char × List Char)
  answer : Option Char
  explanation : List Char
  specialty : List Char
  images : List (List Char × List Char)
deriving DecidableEq, Repr

/-- Replacement text installed over the investigations marker
(`src/archive/main.py` line 1073). -/
def invReplacement : List Char :=
  "[color=FFB366][b]Investigations[/b][/color]: ".toList

set_option maxHeartbeats 1600000 in
/-- `QuizLoader._parse_question(block, specialty)` from `src/archive/main.py`
lines 1040-1163, embedded one statement at a time. -/
def archiveParseQuestion (block : List Char) (specialty : List Char) :
    Option ArchiveQuestion :=
  if block.isEmpty then none
  else if ¬ startsWithSeq "###".toList (pythonStrip block) then none
  else
    match headerMatch block with
    | none => none
    | some ntr =>
      let num := ntr.1
      let title := ntr.2.1
      let rest := ntr.2.2
      let parts0 : List (List Char) := ((splitBlank rest 4).map pythonStrip).filter (fun p => ¬ p.isEmpty)
      let scenario0 : List Char := parts0.headD []
      let invIdx : Option Nat := parts0.findIdx? (fun p => searchInv p)
      let parts : List (List Char) := match invIdx with
        | some i => parts0.set i (subInvWith invReplacement (parts0.getD i []))
        | none => parts0
      let sp1 : List Char × List Char × Nat :=
        match invIdx with
        | some i =>
          let scen1 := scenario0 ++ "\n\n".toList ++ "[color=FFB366]".toList ++
            parts.getD i [] ++ "[/color]".toList
          if i + 1 < parts.length then (scen1, parts.getD (i + 1) [], i + 2)
          else
            let spc := splitDoubleNl scen1
            if 1 < spc.length then
              (List.intercalate "\n\n".toList spc.dropLast, spc.getLastD [], 1)
            else (scen1, "What is the most likely diagnosis?".toList, 1)
        | none =>
          if 2 ≤ parts.length then (scenario0, parts.getD 1 [], 2)
          else (scenario0, "What is the most likely diagnosis?".toList, 1)
      let scenario : List Char := sp1.1
      let prompt : List Char := sp1.2.1
      let tailStart : Nat := sp1.2.2
      let tail0 : List Char :=
        if tailStart < parts.length then
          List.intercalate "\n\n".toList (parts.drop tailStart)
        else if parts.length = tailStart ∧ 0 < tailStart then
          if parts.getD (tailStart - 1) [] ≠ prompt ∧ parts.getD (tailStart - 1) [] ≠ scenario
          then parts.getD (tailStart - 1) [] else []
        else if parts.length = 1 ∧ invIdx = none then scenario
        else []
      let tail : List Char :=
        if (pythonStrip tail0).isEmpty ∧ 0 < parts.length ∧
            parts.getLastD ([] : List Char) ≠ prompt ∧
            parts.getLastD ([] : List Char) ≠ scenario ∧
            ¬ invIdx = some (parts.length - 1)
        then parts.getLastD ([] : List Char) else tail0
      let options0 := optFindAll tail
      let options := if options0.length < 2 then optFallback tail else options0
      let answer := searchAnsArchive tail
      let explanation := ((searchExpl tail).map pythonStrip).getD []
      let specialtyVal := match searchSpecInQ block with
        | some v => pythonStrip v
        | none => specialty
      let images :=
        (scanCustomImgs block).map (fun i => ("View Image".toList, pythonStrip i)) ++
        (scanMdImgs block).map
          (fun ap => ((if ap.1.isEmpty then "View Image".toList else ap.1), pythonStrip ap.2))
      some {
        number := num
        title := pythonStrip title
        scenario := pythonStrip scenario
        questionPrompt := pythonStrip prompt
        options := options.map (fun lt => (lt.1, pythonStrip lt.2))
        answer := answer
        explanation := explanation
        specialty := if specialtyVal.isEmpty then "Uncategorized".toList else specialtyVal
        images := images }

/-! ## Answer/Progress Tracker (`QuizController`, `src/archive/main.py` lines 1521-1593)

Python dicts keyed by `(number, title)` are modelled as association lists
updated in place (`dictInsert` replaces an existing key, preserving the
dict's length semantics). `IndexError` is modelled by `Option`. -/

/-- A value of `self.answered_questions` (line 1559). -/
structure AnswerRecord where
  selectedLetter : Option Char
  correct : Bool
  question : ArchiveQuestion
deriving DecidableEq

/-- Python dict assignment `d[k] = v`. -/
def dictInsert {κ ν : Type} [DecidableEq κ] (k : κ) (v : ν) :
    List (κ × ν) → List (κ × ν)
  | [] => [(k, v)]
  | (k', v') :: t => if k' = k then (k, v) :: t else (k', v') :: dictInsert k v t

/-- Python dict lookup `d.get(k)`. -/
def dictLookup {κ ν : Type} [DecidableEq κ] (k : κ) : List (κ × ν) → Option ν
  | [] => none
  | (k', v') :: t => if k' = k then some v' else dictLookup k t

theorem dictInsert_length {κ ν : Type} [DecidableEq κ] (k : κ) (v : ν) :
    ∀ d : List (κ × ν), (dictInsert k v d).length = d.length ∨
      (dictInsert k v d).length = d.length + 1 := by
  intro d
  induction d with
  | nil => simp [dictInsert]
  | cons p t ih =>
    by_cases h : p.1 = k
    · left
      simp [dictInsert, h]
    · rcases ih with h1 | h1
      · left
        simp [dictInsert, h, h1]
      · right
        simp [dictInsert, h, h1]

/-- Mutable state of `QuizController` (lines 1524-1533). -/
structure ControllerState where
  questions : List ArchiveQuestion
  quizName : List Char
  currentIdx : Nat
  score : Nat
  totalAnswered : Nat
  answeredQuestions : List ((List Char × List Char) × AnswerRecord)
  shuffledOptions : List ((List Char × List Char) × List (Char × List Char))
  categoryScores : List (List Char × (Nat × Nat))
  quizComplete : Bool
deriving DecidableEq

/-- `QuizController.get_current_question` (line 1592): returns `None` when
the list is empty or the index is out of range. -/
def getCurrentQuestion (st : ControllerState) : Option ArchiveQuestion :=
  if h : ¬ st.questions.isEmpty ∧ st.currentIdx < st.questions.length
  then some (st.questions.get ⟨st.currentIdx, h.2⟩)
  else none

/-- `QuizController.submit_answer(selected_orig_letter)` (lines 1551-1575).
`none` models the `IndexError` raised by `self.questions[self.current_idx]`.
On success returns the new state together with `(is_correct, correct_text)`.
The per-category bucket stores `(total, correct)`. -/
def controllerSubmit (st : ControllerState) (selected : Option Char) :
    Option (ControllerState × Bool × Option (List Char)) :=
  match st.questions.get? st.currentIdx with
  | none => none
  | some q =>
    let qkey := (q.number, q.title)
    let isCorrect : Bool := selected = q.answer
    let correctText := (q.options.find? (fun o => some o.1 = q.answer)).map (fun o => o.2)
    let answered := dictInsert qkey ⟨selected, isCorrect, q⟩ st.answeredQuestions
    let category := q.specialty
    let cs0 := if (dictLookup category st.categoryScores).isSome then st.categoryScores
      else st.categoryScores ++ [(category, (0, 0))]
    let cs1 := if isCorrect then
        dictInsert category
          ((fun tc => (tc.1, tc.2 + 1)) ((dictLookup category cs0).getD (0, 0))) cs0
      else cs0
    let cs2 := dictInsert category
      ((fun tc => (tc.1 + 1, tc.2)) ((dictLookup category cs1).getD (0, 0))) cs1
    some ({ st with
        score := if isCorrect then st.score + 1 else st.score,
        totalAnswered := st.totalAnswered + 1,
        answeredQuestions := answered,
        categoryScores := cs2,
        quizComplete := st.questions.length ≤ answered.length },
      isCorrect, correctText)

/-- `QuizWidget.submit_answer` (lines 2737-2751): refuses (error popup,
state untouched, flag `true`) when there is no current question, the current
question has no answer key, or nothing is selected; otherwise delegates to
the controller. The outer `Option` propagates a controller `IndexError`. -/
def widgetSubmitAnswer (st : ControllerState) (selected : Option Char) :
    Option (ControllerState × Bool) :=
  match getCurrentQuestion st with
  | none => some (st, true)
  | some q =>
    if q.answer.isNone then some (st, true)
    else
      match selected with
      | none => some (st, true)
      | some _ => (controllerSubmit st selected).map (fun r => (r.1, false))

/-- `QuizController.load_quiz(questions, quiz_name, limit_questions,
specialty_filter)` (lines 1535-1549). `random.sample(questions, 100)` and
`random.shuffle(questions)` are modelled by the function parameters `sample`
and `shuffle`; theorems constrain them by explicit hypotheses. -/
def loadQuiz (sample shuffle : List ArchiveQuestion → List ArchiveQuestion)
    (st : ControllerState) (questions : List ArchiveQuestion) (quizName : List Char)
    (limitQuestions : Bool) (specialtyFilter : List Char) : ControllerState :=
  let qs1 := if specialtyFilter ≠ "All".toList
    then questions.filter (fun q => q.specialty = specialtyFilter) else questions
  let qs2 := if limitQuestions ∧ 100 < qs1.length then sample qs1 else qs1
  let qs3 := shuffle qs2
  { st with
    questions := qs3
    quizName := quizName
    currentIdx := 0
    score := 0
    totalAnswered := 0
    answeredQuestions := []
    shuffledOptions := []
    categoryScores := []
    quizComplete := false }

/-! ## Specialty lookup (`find_specialty`, `src/app.py` lines 185-195 and
`src/api/index.py` lines 231-241, 277-287)

```
lo, hi = 0, len(specialty_markers) - 1
best = 0
while lo <= hi:
    mid = (lo + hi) // 2
    if specialty_markers[mid][0] <= pos:
        best = mid
        lo = mid + 1
    else:
        hi = mid - 1
return specialty_markers[best][1]
```
`lo`/`hi` are embedded as `Int` because `hi` passes through `-1`. -/

def findSpecialtyAux (markers : List (Nat × List Char)) (pos : Nat) :
    Int → Int → Nat → Nat := fun lo hi best =>
  if lo ≤ hi then
    let mid := (lo + hi) / 2
    if (markers.getD mid.toNat (0, [])).1 ≤ pos then
      findSpecialtyAux markers pos (mid + 1) hi mid.toNat
    else
      findSpecialtyAux markers pos lo (mid - 1) best
  else best
termination_by lo hi _ => (hi + 1 - lo).toNat
decreasing_by
  · omega
  · omega

def find_specialty (markers : List (Nat × List Char)) (pos : Nat) : List Char :=
  (markers.getD (findSpecialtyAux markers pos 0 ((markers.length : Int) - 1) 0) (0, [])).2

/-- Sortedness of the `(offset, name)` marker list by offset. -/
def offsetsSortedB : List (Nat × List Char) → Bool
  | [] => true
  | [_] => true
  | a :: b :: t => decide (a.1 ≤ b.1) && offsetsSortedB (b :: t)

theorem offsetsSortedB_mono {l : List (Nat × List Char)}
    (hs : offsetsSortedB l = true) :
    ∀ i j, i ≤ j → j < l.length → (l.getD i (0, [])).1 ≤ (l.getD j (0, [])).1 := by
  induction l with
  | nil => intro i j _ hj; simp at hj
  | cons a t ih =>
    intro i j hij hj
    cases t with
    | nil =>
      simp at hj
      subst hj
      have hi0 : i = 0 := Nat.le_zero.mp hij
      subst hi0
      exact Nat.le_refl _
    | cons b t' =>
      have hab : a.1 ≤ b.1 ∧ offsetsSortedB (b :: t') = true := by
        simpa [offsetsSortedB] using hs
      match i, j with
      | 0, 0 => exact Nat.le_refl _
      | 0, j + 1 =>
        have h0 : ((b :: t').getD 0 (0, [])).1 = b.1 := rfl
        have := ih hab.2 0 j (Nat.zero_le _) (by simpa using hj)
        rw [h0] at this
        calc a.1 ≤ b.1 := hab.1
          _ ≤ (((b :: t').getD j (0, []))).1 := this
      | i + 1, j + 1 =>
        exact ih hab.2 i j (by omega) (by simpa using hj)

theorem findSpecialtyAux_greatest
    (markers : List (Nat × List Char)) (pos : Nat)
    (hs : offsetsSortedB markers = true)
    (k : Nat) (hk : k < markers.length)
    (hkle : (markers.getD k (0, [])).1 ≤ pos)
    (hkmax : ∀ j, j < markers.length → (markers.getD j (0, [])).1 ≤ pos → j ≤ k) :
    ∀ n (lo hi : Int) (best : Nat), (hi + 1 - lo).toNat ≤ n → 0 ≤ lo →
      hi < (markers.length : Int) →
      ((best = k ∧ (k : Int) + 1 ≤ lo) ∨ (lo ≤ (k : Int) ∧ (k : Int) ≤ hi)) →
      findSpecialtyAux markers pos lo hi best = k := by
  intro n
  induction n with
  | zero =>
    intro lo hi best hm hlo hhi hinv
    have hlh : ¬ lo ≤ hi := by omega
    rw [findSpecialtyAux]
    simp only [hlh, if_false]
    rcases hinv with ⟨hb, _⟩ | ⟨h1, h2⟩
    · exact hb
    · omega
  | succ n ih =>
    intro lo hi best hm hlo hhi hinv
    by_cases hlh : lo ≤ hi
    · rw [findSpecialtyAux]
      simp only [hlh, if_true]
      have hmid1 : lo ≤ (lo + hi) / 2 := by omega
      have hmid2 : (lo + hi) / 2 ≤ hi := by omega
      by_cases hcmp : (markers.getD ((lo + hi) / 2).toNat (0, [])).1 ≤ pos
      · simp only [hcmp, if_true]
        have hmk : ((lo + hi) / 2).toNat ≤ k := hkmax _ (by omega) hcmp
        apply ih
        · omega
        · omega
        · exact hhi
        · by_cases hkm : (k : Int) ≤ (lo + hi) / 2
          · left
            constructor
            · omega
            · omega
          · right
            have hk2 : (k : Int) ≤ hi := by
              rcases hinv with ⟨_, hb2⟩ | ⟨_, h2⟩
              · omega
              · exact h2
            omega
      · simp only [hcmp, if_false]
        have hkm : k < ((lo + hi) / 2).toNat := by
          by_contra hcon
          push_neg at hcon
          exact hcmp (le_trans (offsetsSortedB_mono hs _ _ hcon (by omega)) hkle)
        apply ih
        · omega
        · exact hlo
        · omega
        · rcases hinv with ⟨hb, hb2⟩ | ⟨h1, _⟩
          · left
            exact ⟨hb, hb2⟩
          · right
            constructor
            · exact h1
            · omega
    · rw [findSpecialtyAux]
      simp only [hlh, if_false]
      rcases hinv with ⟨hb, _⟩ | ⟨h1, h2⟩
      · exact hb
      · omega

/-- **C3.** For every query offset, `find_specialty` over a sorted marker
list beginning with the sentinel `(0, "Uncategorized")` returns the name
paired with the greatest indexed offset that is `≤` the query offset (it
returns the entry of the greatest such *index*, whose offset is maximal
among qualifying offsets); and a document with no specialty headers (markers
consisting of the sentinel alone) yields `"Uncategorized"` for every offset. -/
theorem c3_find_specialty_greatest
    (markers : List (Nat × List Char)) (pos : Nat)
    (hs : offsetsSortedB markers = true)
    (hh : markers.head? = some (0, "Uncategorized".toList)) :
    (∃ k, k < markers.length ∧ (markers.getD k (0, [])).1 ≤ pos ∧
      (∀ j, j < markers.length → (markers.getD j (0, [])).1 ≤ pos → j ≤ k) ∧
      (∀ j, j < markers.length → (markers.getD j (0, [])).1 ≤ pos →
        (markers.getD j (0, [])).1 ≤ (markers.getD k (0, [])).1) ∧
      find_specialty markers pos = (markers.getD k (0, [])).2) ∧
    (markers = [(0, "Uncategorized".toList)] →
      find_specialty markers pos = "Uncategorized".toList) := by
  obtain ⟨t, ht⟩ : ∃ t, markers = (0, "Uncategorized".toList) :: t := by
    cases markers with
    | nil => simp at hh
    | cons a t =>
      simp at hh
      exact ⟨t, by rw [hh]; rfl⟩
  have hlen : 0 < markers.length := by rw [ht]; simp
  have h0le : (markers.getD 0 (0, [])).1 ≤ pos := by rw [ht]; simp
  have hne : ((Finset.range markers.length).filter
      (fun j => (markers.getD j (0, [])).1 ≤ pos)).Nonempty := by
    refine ⟨0, ?_⟩
    simp only [Finset.mem_filter, Finset.mem_range]
    exact ⟨hlen, h0le⟩
  have hk : ((Finset.range markers.length).filter
        (fun j => (markers.getD j (0, [])).1 ≤ pos)).max' hne < markers.length ∧
      (markers.getD (((Finset.range markers.length).filter
        (fun j => (markers.getD j (0, [])).1 ≤ pos)).max' hne) (0, [])).1 ≤ pos := by
    have := Finset.max'_mem _ hne
    simpa only [Finset.mem_filter, Finset.mem_range] using this
  have hkmax : ∀ j, j < markers.length → (markers.getD j (0, [])).1 ≤ pos →
      j ≤ ((Finset.range markers.length).filter
        (fun j => (markers.getD j (0, [])).1 ≤ pos)).max' hne := by
    intro j hj hjle
    apply Finset.le_max'
    simp only [Finset.mem_filter, Finset.mem_range]
    exact ⟨hj, hjle⟩
  have haux := findSpecialtyAux_greatest markers pos hs _ hk.1 hk.2 hkmax
      markers.length 0 ((markers.length : Int) - 1) 0 (by omega) (by omega) (by omega)
      (Or.inr ⟨by omega, by have := hk.1; omega⟩)
  constructor
  · refine ⟨_, hk.1, hk.2, hkmax, ?_, ?_⟩
    · intro j hj hjle
      exact offsetsSortedB_mono hs j _ (hkmax j hj hjle) hk.1
    · unfold find_specialty
      rw [haux]
  · intro hsing
    have hlen1 : markers.length = 1 := by rw [hsing]; rfl
    have hk0 : ((Finset.range markers.length).filter
        (fun j => (markers.getD j (0, [])).1 ≤ pos)).max' hne = 0 := by
      have := hk.1
      omega
    unfold find_specialty
    rw [haux, hk0, hsing]
    rfl

/-- **C3 witness.** -/
theorem c3_find_specialty_greatest_witness :
    ∃ k, k < ([((0 : Nat), "Uncategorized".toList), (12, "Cardiology".toList)]).length ∧
      (([((0 : Nat), "Uncategorized".toList), (12, "Cardiology".toList)]).getD k (0, [])).1 ≤ 30 ∧
      (∀ j, j < ([((0 : Nat), "Uncategorized".toList), (12, "Cardiology".toList)]).length →
        (([((0 : Nat), "Uncategorized".toList), (12, "Cardiology".toList)]).getD j (0, [])).1 ≤ 30 → j ≤ k) ∧
      (∀ j, j < ([((0 : Nat), "Uncategorized".toList), (12, "Cardiology".toList)]).length →
        (([((0 : Nat), "Uncategorized".toList), (12, "Cardiology".toList)]).getD j (0, [])).1 ≤ 30 →
        (([((0 : Nat), "Uncategorized".toList), (12, "Cardiology".toList)]).getD j (0, [])).1 ≤
          (([((0 : Nat), "Uncategorized".toList), (12, "Cardiology".toList)]).getD k (0, [])).1) ∧
      find_specialty [((0 : Nat), "Uncategorized".toList), (12, "Cardiology".toList)] 30 =
        (([((0 : Nat), "Uncategorized".toList), (12, "Cardiology".toList)]).getD k (0, [])).2 :=
  (c3_find_specialty_greatest
    [((0 : Nat), "Uncategorized".toList), (12, "Cardiology".toList)] 30
    (by decide) (by decide)).1

/-! ## Document segmentation and parse loop (claim C7)

`QUESTION_RE = re.compile(r'(###\s*\d+\..*?)(?=###\s*\d+\.|\Z)', re.DOTALL)`.
A match must start with the mandatory `###\s*\d+\.`; the lazy `.*?` extends
exactly to the next such header start or the end of the document, and the
next `finditer` match resumes there.  Since the span of one mandatory part
cannot contain another header start, the emitted blocks are precisely the
spans between consecutive header-start positions. -/

/-- Does `###\s*\d+\.` match at the head of `s`? -/
def headerStartB (s : List Char) : Bool :=
  match eatLit "###".toList s with
  | none => false
  | some r1 =>
    let r2 := r1.dropWhile isSpaceB
    let ds := r2.takeWhile isDigitB
    if ds.isEmpty then false
    else (r2.drop ds.length).headD ' ' == '.'

/-- All positions of `content` where a question header starts. -/
def questionStarts (content : List Char) : List Nat :=
  (List.range content.length).filter (fun i => headerStartB (content.drop i))

/-- The `(start_offset, block_text)` pairs produced by
`QUESTION_RE.finditer(content)` (`qm.start(), qm.group(1)`). -/
def questionBlocks (content : List Char) : List (Nat × List Char) :=
  let ps := questionStarts content
  List.zipWith (fun p pn => (p, (content.take pn).drop p)) ps (ps.drop 1 ++ [content.length])

/-- The parse loop of `PWAQuizLoader.load_from_markdown` /
`parse_markdown_content` (`src/app.py` lines 197-206, `src/api/index.py`
lines 243-252), keeping each successful question together with the start
offset of its block.  The sorted specialty-marker list (built on lines
178-183) is passed in. -/
def loadQuestionsWithOffsets (content : List Char)
    (markers : List (Nat × List Char)) : List (Nat × AppQuestion) :=
  (questionBlocks content).filterMap
    (fun pb => (appParseQuestion pb.2 (find_specialty markers pb.1)).map (fun q => (pb.1, q)))

/-- The question list actually returned to the caller. -/
def loadQuestions (content : List Char) (markers : List (Nat × List Char)) :
    List AppQuestion :=
  (loadQuestionsWithOffsets content markers).map (fun pq => pq.2)

theorem zipWith_pair_fst {α β γ : Type} (g : α → β → γ) :
    ∀ (ps : List α) (qs : List β), ps.length ≤ qs.length →
      (List.zipWith (fun p pn => (p, g p pn)) ps qs).map Prod.fst = ps := by
  intro ps
  induction ps with
  | nil => intro qs _; simp
  | cons p ps ih =>
    intro qs hl
    cases qs with
    | nil => simp at hl
    | cons q qs =>
      simp only [List.zipWith_cons_cons, List.map_cons, List.cons.injEq, true_and]
      exact ih qs (by simpa using hl)

theorem filterMap_offsets_sublist {β γ : Type} (f : Nat × β → Option γ) :
    ∀ l : List (Nat × β),
      ((l.filterMap (fun pb => (f pb).map (fun q => (pb.1, q)))).map Prod.fst).Sublist
        (l.map Prod.fst) := by
  intro l
  induction l with
  | nil => simp
  | cons pb t ih =>
    cases hf : f pb with
    | none =>
      simp only [List.filterMap_cons, hf, Option.map_none', List.map_cons]
      exact ih.cons _
    | some q =>
      simp only [List.filterMap_cons, hf, Option.map_some', List.map_cons]
      exact ih.cons₂ _

/-- **C7.** The document parse loop emits successfully parsed questions in
document order: the start offsets of the emitted questions' blocks are
strictly increasing (hence no reordering occurs), for every document text
and every specialty-marker list. -/
theorem c7_document_order (content : List Char) (markers : List (Nat × List Char)) :
    ((loadQuestionsWithOffsets content markers).map Prod.fst).Pairwise (· < ·) := by
  have h1 : (questionStarts content).Pairwise (· < ·) :=
    (List.pairwise_lt_range _).filter _
  have h2 : (questionBlocks content).map Prod.fst = questionStarts content := by
    unfold questionBlocks
    apply zipWith_pair_fst
    cases questionStarts content with
    | nil => simp
    | cons a t => simp
  have h3 := filterMap_offsets_sublist
    (fun pb => appParseQuestion pb.2 (find_specialty markers pb.1)) (questionBlocks content)
  unfold loadQuestionsWithOffsets
  exact List.Pairwise.sublist h3 (h2 ▸ h1)

/-! ## Claims about the tracker (C2, C8, C10) -/

/-- A sample parsed question for concrete tracker states. -/
def sampleQuestion (ans : Option Char) : ArchiveQuestion where
  number := "1".toList
  title := "T".toList
  scenario := "S".toList
  questionPrompt := "P".toList
  options := [('A', "x".toList)]
  answer := ans
  explanation := []
  specialty := "Spec".toList
  images := []

/-- A freshly initialised controller holding `qs`. -/
def freshState (qs : List ArchiveQuestion) : ControllerState where
  questions := qs
  quizName := "q".toList
  currentIdx := 0
  score := 0
  totalAnswered := 0
  answeredQuestions := []
  shuffledOptions := []
  categoryScores := []
  quizComplete := false

/-- A controller state whose single question has already been answered
(correctly) and recorded. -/
def answeredState : ControllerState where
  questions := [sampleQuestion (some 'A')]
  quizName := "q".toList
  currentIdx := 0
  score := 1
  totalAnswered := 1
  answeredQuestions :=
    [(("1".toList, "T".toList),
      { selectedLetter := some 'A', correct := true,
        question := sampleQuestion (some 'A') })]
  shuffledOptions := []
  categoryScores := [("Spec".toList, (1, 1))]
  quizComplete := true

/-- **C10.** `QuizController.submit_answer` indexes `self.questions` at the
current position with no guard, so with an empty question list it raises
`IndexError` (modelled: returns `none`); whereas `get_current_question`
returns `None` exactly in the states where the list is empty or the current
index is out of range. -/
theorem c10_submit_unguarded (st : ControllerState) (sel : Option Char) :
    (st.questions = [] → controllerSubmit st sel = none) ∧
    (getCurrentQuestion st = none ↔
      st.questions = [] ∨ st.questions.length ≤ st.currentIdx) := by
  constructor
  · intro h
    unfold controllerSubmit
    rw [h]
    rfl
  · constructor
    · intro hnone
      unfold getCurrentQuestion at hnone
      split at hnone
      · exact absurd hnone (by simp)
      · rename_i hcond
        by_cases he : st.questions = []
        · exact Or.inl he
        · right
          rw [not_and_or, not_not] at hcond
          rcases hcond with h1 | h2
          · exact absurd (by simpa [List.isEmpty_iff] using h1) he
          · omega
    · intro hor
      unfold getCurrentQuestion
      split
      · rename_i hcond
        exfalso
        rcases hor with he | hlen
        · exact hcond.1 (by simp [he])
        · omega
      · rfl

/-- **C10 witness.** -/
theorem c10_witness : controllerSubmit (freshState []) (some 'A') = none :=
  (c10_submit_unguarded (freshState []) (some 'A')).1 rfl

/-- **C2 counterexample.** The claim says submitting an already-answered
question is a no-op that signals an error and leaves the totals unchanged.
In the code, `QuizController.submit_answer` performs no such guard: on a
state whose single question is already recorded in `answered_questions`, it
succeeds (no error) and bumps `total_answered` from 1 to 2 and the score
from 1 to 2, double-counting the question. -/
theorem c2_counterexample :
    (controllerSubmit answeredState (some 'A')).map
      (fun r => (r.1.totalAnswered, r.1.score, r.2.1)) = some (2, 2, true) := by
  decide

/-- **C2 (amended).** The controller-level `submit_answer` performs no
unscorable/already-answered guard: whenever the index is valid it records
unconditionally, incrementing `total_answered` (so re-submission
double-counts). The refusal for unscorable questions lives in the GUI layer:
`QuizWidget.submit_answer` signals an error and leaves the tracker state
unchanged when the current question has no answer key (re-submission of an
already-answered question is prevented only by the widget disabling its
submit control, not by either `submit_answer`). -/
theorem c2_amended_guard_in_widget :
    (∀ st sel q, getCurrentQuestion st = some q → q.answer = none →
      widgetSubmitAnswer st sel = some (st, true)) ∧
    (∀ st sel r, controllerSubmit st sel = some r →
      r.1.totalAnswered = st.totalAnswered + 1 ∧ r.1.questions = st.questions ∧
      r.1.currentIdx = st.currentIdx) := by
  constructor
  · intro st sel q hget hans
    unfold widgetSubmitAnswer
    rw [hget]
    simp [hans]
  · intro st sel r h
    unfold controllerSubmit at h
    split at h
    · exact absurd h (by simp)
    · rename_i q hq
      injection h with h'
      subst h'
      exact ⟨rfl, rfl, rfl⟩

/-- **C2 witness.** -/
theorem c2_witness :
    widgetSubmitAnswer (freshState [sampleQuestion none]) (some 'A') =
      some (freshState [sampleQuestion none], true) :=
  c2_amended_guard_in_widget.1 (freshState [sampleQuestion none]) (some 'A')
    (sampleQuestion none) (by decide) (by decide)

/-- **C8.** After `load_quiz` returns (with `random.sample`/`random.shuffle`
modelled by any functions satisfying their contracts): every retained
question's specialty equals the filter when it is not `"All"`; at most 100
questions are retained when limiting is enabled; retained questions are drawn
from the input list; and position, score, total answered, the answered map,
the per-category scores and the completion flag are all reset. -/
theorem c8_load_quiz
    (sample shuffle : List ArchiveQuestion → List ArchiveQuestion)
    (hsample : ∀ xs, 100 < xs.length →
      (sample xs).length = 100 ∧ ∀ q ∈ sample xs, q ∈ xs)
    (hshuffle : ∀ xs, (shuffle xs).Perm xs)
    (st : ControllerState) (questions : List ArchiveQuestion) (quizName : List Char)
    (limitQuestions : Bool) (specialtyFilter : List Char) :
    let st' := loadQuiz sample shuffle st questions quizName limitQuestions specialtyFilter
    (specialtyFilter ≠ "All".toList → ∀ q ∈ st'.questions, q.specialty = specialtyFilter) ∧
    (limitQuestions = true → st'.questions.length ≤ 100) ∧
    (∀ q ∈ st'.questions, q ∈ questions) ∧
    st'.currentIdx = 0 ∧ st'.score = 0 ∧ st'.totalAnswered = 0 ∧
    st'.answeredQuestions = [] ∧ st'.categoryScores = [] ∧ st'.quizComplete = false := by
  intro st'
  have core_mem : ∀ (qs1 : List ArchiveQuestion) (q : ArchiveQuestion),
      q ∈ shuffle (if limitQuestions ∧ 100 < qs1.length then sample qs1 else qs1) →
      q ∈ qs1 := by
    intro qs1 q hmem
    rw [(hshuffle _).mem_iff] at hmem
    by_cases hc : limitQuestions ∧ 100 < qs1.length
    · rw [if_pos hc] at hmem
      exact (hsample _ hc.2).2 q hmem
    · rw [if_neg hc] at hmem
      exact hmem
  have core_len : ∀ qs1 : List ArchiveQuestion, limitQuestions = true →
      (shuffle (if limitQuestions ∧ 100 < qs1.length then sample qs1 else qs1)).length
        ≤ 100 := by
    intro qs1 hlim
    rw [(hshuffle _).length_eq]
    by_cases hc : limitQuestions ∧ 100 < qs1.length
    · rw [if_pos hc]
      exact Nat.le_of_eq (hsample _ hc.2).1
    · rw [if_neg hc]
      rw [hlim] at hc
      simp at hc
      omega
  have hq : st'.questions = shuffle
      (if limitQuestions ∧ 100 <
          (if specialtyFilter ≠ "All".toList
            then questions.filter (fun q => q.specialty = specialtyFilter)
            else questions).length
        then sample (if specialtyFilter ≠ "All".toList
            then questions.filter (fun q => q.specialty = specialtyFilter)
            else questions)
        else (if specialtyFilter ≠ "All".toList
            then questions.filter (fun q => q.specialty = specialtyFilter)
            else questions)) := rfl
  refine ⟨?_, ?_, ?_, rfl, rfl, rfl, rfl, rfl, rfl⟩
  · intro hne q hmem
    have h1 := core_mem _ q (hq ▸ hmem)
    rw [if_pos hne] at h1
    have := List.mem_filter.mp h1
    exact of_decide_eq_true this.2
  · intro hlim
    rw [hq]
    exact core_len _ hlim
  · intro q hmem
    have h1 := core_mem _ q (hq ▸ hmem)
    by_cases hne : specialtyFilter ≠ "All".toList
    · rw [if_pos hne] at h1
      exact (List.mem_filter.mp h1).1
    · rw [if_neg hne] at h1
      exact h1

/-- **C8 witness.** -/
theorem c8_witness :
    let st' := loadQuiz (fun xs => xs.take 100) (fun xs => xs)
      answeredState [sampleQuestion (some 'A')] "q".toList true "Spec".toList
    ("Spec".toList ≠ "All".toList → ∀ q ∈ st'.questions, q.specialty = "Spec".toList) ∧
    (true = true → st'.questions.length ≤ 100) ∧
    (∀ q ∈ st'.questions, q ∈ [sampleQuestion (some 'A')]) ∧
    st'.currentIdx = 0 ∧ st'.score = 0 ∧ st'.totalAnswered = 0 ∧
    st'.answeredQuestions = [] ∧ st'.categoryScores = [] ∧ st'.quizComplete = false :=
  c8_load_quiz (fun xs => xs.take 100) (fun xs => xs)
    (fun xs h => ⟨by simp [List.length_take]; omega,
      fun q hq => List.mem_of_mem_take hq⟩)
    (fun xs => List.Perm.refl xs)
    answeredState [sampleQuestion (some 'A')] "q".toList true "Spec".toList

/-! ## Claim C4: answer/option consistency invariant -/

/-- A block whose explicit answer letter matches none of its options. -/
def mismatchBlock : List Char :=
  "### 1. T\nScen\n\nPrompt?\n\nA. Alpha\nB. Beta\n\n**Answer**: Z".toList

/-- **C4 counterexample.** The parser does not enforce the claimed invariant:
this block parses to a record with `answer = 'Z'` while its option letters
are only `A` and `B`. -/
theorem c4_counterexample :
    (archiveParseQuestion mismatchBlock "S".toList).map
      (fun q => (q.answer, q.options.map Prod.fst)) = some (some 'Z', ['A', 'B']) := by
  decide

/-- **C4 (amended).** The parser can produce a record whose answer letter
matches no option (first conjunct).  For such a question the tracker does
not crash — `submit_answer` is total whenever the index is in range (third
conjunct) — but it also does not treat the question as unscorable: it
accepts the submission, records it as incorrect, and finds no correct-text
(second conjunct). -/
theorem c4_amended_no_invariant :
    ((archiveParseQuestion mismatchBlock "S".toList).map
      (fun q => (q.answer, q.options.map Prod.fst)) = some (some 'Z', ['A', 'B'])) ∧
    (∀ st q a sel r, st.questions.get? st.currentIdx = some q →
      q.answer = some a → (∀ o ∈ q.options, o.1 ≠ a) → sel ≠ some a →
      controllerSubmit st sel = some r →
      r.2.1 = false ∧ r.2.2 = none ∧ r.1.totalAnswered = st.totalAnswered + 1) ∧
    (∀ st sel, st.currentIdx < st.questions.length →
      (controllerSubmit st sel).isSome) := by
  refine ⟨by decide, ?_, ?_⟩
  · intro st q a sel r hget hans hno hsel hsub
    unfold controllerSubmit at hsub
    rw [hget] at hsub
    have hcorr : (decide (sel = q.answer)) = false := by
      rw [hans]
      simpa using hsel
    have hfind : q.options.find? (fun o => some o.1 = q.answer) = none := by
      rw [List.find?_eq_none]
      intro o ho
      rw [hans]
      simpa using hno o ho
    injection hsub with h'
    subst h'
    refine ⟨by simpa using hcorr, by simp [hfind], rfl⟩
  · intro st sel h
    have hget : st.questions.get? st.currentIdx = some (st.questions.get ⟨_, h⟩) :=
      List.get?_eq_get h
    unfold controllerSubmit
    rw [hget]
    rfl

/-- **C4 witness.** -/
theorem c4_witness :
    (controllerSubmit (freshState [sampleQuestion (some 'Z')]) (some 'A')).map
      (fun r => (r.2.1, r.2.2, r.1.totalAnswered)) = some (false, none, 1) := by
  cases hr : controllerSubmit (freshState [sampleQuestion (some 'Z')]) (some 'A') with
  | none =>
    have := c4_amended_no_invariant.2.2 (freshState [sampleQuestion (some 'Z')])
      (some 'A') (by decide)
    rw [hr] at this
    exact absurd this (by simp)
  | some r =>
    have h := c4_amended_no_invariant.2.1 (freshState [sampleQuestion (some 'Z')])
      (sampleQuestion (some 'Z')) 'Z' (some 'A') r (by decide) (by decide)
      (by decide) (by decide) hr
    simp [h.1, h.2.1, h.2.2, freshState]

/-! ## Claim C5: hard-failure condition of the block parser -/

theorem eatLit_prefix (lit : List Char) :
    ∀ s r, eatLit lit s = some r → s = lit ++ r := by
  induction lit with
  | nil =>
    intro s r h
    simp [eatLit] at h
    simp [h]
  | cons c cs ih =>
    intro s r h
    match s with
    | [] => simp [eatLit] at h
    | d :: ds =>
      simp only [eatLit] at h
      by_cases hd : d == c
      · simp only [hd, if_true] at h
        have := ih ds r h
        simp at hd
        simp [hd, this]
      · simp [hd] at h

theorem startsWith_sharp3 (x : List Char) :
    startsWithSeq "###".toList ('#' :: '#' :: '#' :: x) = true := rfl

theorem strip_sharp3 (rest : List Char) :
    startsWithSeq "###".toList (pythonStrip ('#' :: '#' :: '#' :: rest)) = true := by
  unfold pythonStrip
  have h1 : List.dropWhile isSpaceB ('#' :: '#' :: '#' :: rest) =
      '#' :: '#' :: '#' :: rest := rfl
  rw [h1]
  have h2 : ('#' :: '#' :: '#' :: rest).reverse = rest.reverse ++ ['#', '#', '#'] := by
    simp
  rw [h2, List.dropWhile_append]
  by_cases he : (rest.reverse.dropWhile isSpaceB).isEmpty
  · rw [if_pos he]
    rfl
  · rw [if_neg he]
    rw [List.reverse_append]
    exact startsWith_sharp3 _

theorem headerMatch_sharp {block : List Char} {ntr : List Char × List Char × List Char}
    (h : headerMatch block = some ntr) :
    ∃ rest, block = '#' :: '#' :: '#' :: rest := by
  simp only [headerMatch] at h
  split at h
  · exact absurd h (by simp)
  · rename_i r1 heq
    exact ⟨r1, eatLit_prefix _ _ _ heq⟩

/-- Follows the spec's words (§4.2/§4.3 step 1): the block's *first line*
matches the level-3 `number. title` header pattern, i.e. `###\s*\d+\.`
followed by arbitrary title text on that line. -/
def firstLineHeaderSpec (block : List Char) : Bool :=
  headerStartB (block.takeWhile (fun c => c != '\n'))

/-- **C5 counterexample.** The claim's "if and only if" fails: the block
`"### 1. Title"` (a header line not followed by a newline, e.g. the last
block of a file without a trailing newline) *passes* the first-line header
pattern, yet the parser returns `None`, because the anchored regex
`###\s*(\d+)\.\s*(.*?)\n(.*)` additionally requires a newline after the
title. -/
theorem c5_counterexample :
    firstLineHeaderSpec "### 1. Title".toList = true ∧
    appParseQuestion "### 1. Title".toList "S".toList = none := by
  decide

/-- The record produced for a header-only block: every downstream field
degrades to its empty/absent default. -/
def defaultParsedQuestion (sp : List Char) : AppQuestion where
  id := 12
  title := "Title".toList
  specialty := sp
  scenario := []
  investigations := []
  prompt := "What is the most likely diagnosis?".toList
  options := []
  correctAnswer := none
  explanations := []

/-- **C5 (amended).** The parser returns `None` exactly when the anchored
header regex (which requires the `### number.` shape *and* a following
newline, with no leading whitespace) fails on the block — so a lone header
line without a newline also yields `None`, not only blocks whose first line
fails the header pattern.  For blocks that do match, a record is returned
(never an exception), with every downstream field degrading to its
empty/absent default when its marker is missing, as the header-only block
`"### 12. Title\n"` shows for every caller-supplied specialty. -/
theorem c5_amended_none_iff_header :
    (∀ block sp, appParseQuestion block sp = none ↔ headerMatch block = none) ∧
    (∀ sp, appParseQuestion "### 12. Title\n".toList sp =
      some (defaultParsedQuestion sp)) := by
  constructor
  · intro block sp
    constructor
    · intro h
      cases hm : headerMatch block with
      | none => rfl
      | some ntr =>
        exfalso
        obtain ⟨rest, hb⟩ := headerMatch_sharp hm
        rw [hb] at h hm
        unfold appParseQuestion at h
        rw [hm] at h
        simp only [] at h
        simp at h
        have hs3 := strip_sharp3 rest
        rw [show ("###".toList : List Char) = ['#', '#', '#'] from rfl] at hs3
        rw [hs3] at h
        simp at h
    · intro h
      unfold appParseQuestion
      split
      · rfl
      · split
        · rfl
        · rw [h]
  · intro sp
    rfl

/-! ## Claim C1: answer-key format tolerance -/

theorem eatLit_cons_ne {c d : Char} (cs ds : List Char) (h : ¬ d = c) :
    eatLit (c :: cs) (d :: ds) = none := by
  simp [eatLit, h]

theorem matchAnsApiAt_ne_star {c : Char} (cs : List Char) (h : ¬ c = '*') :
    matchAnsApiAt (c :: cs) = none := by
  unfold matchAnsApiAt
  rw [show ("**".toList : List Char) = ['*', '*'] from rfl]
  rw [eatLit_cons_ne _ _ h]

theorem matchAnsArchiveAt_ne_star {c : Char} (cs : List Char) (h : ¬ c = '*') :
    matchAnsArchiveAt (c :: cs) = none := by
  unfold matchAnsArchiveAt
  rw [show ("**".toList : List Char) = ['*', '*'] from rfl]
  rw [eatLit_cons_ne _ _ h]

theorem searchAnsApi_skip (pre : List Char) (s : List Char)
    (hpre : ∀ c ∈ pre, ¬ c = '*') :
    searchAnsApi (pre ++ s) = searchAnsApi s := by
  induction pre with
  | nil => rfl
  | cons c cs ih =>
    have hc := hpre c (by simp)
    have hcs : ∀ x ∈ cs, ¬ x = '*' := fun x hx => hpre x (by simp [hx])
    simp only [List.cons_append, searchAnsApi]
    rw [matchAnsApiAt_ne_star _ hc]
    exact ih hcs

theorem searchAnsArchive_skip (pre : List Char) (s : List Char)
    (hpre : ∀ c ∈ pre, ¬ c = '*') :
    searchAnsArchive (pre ++ s) = searchAnsArchive s := by
  induction pre with
  | nil => rfl
  | cons c cs ih =>
    have hc := hpre c (by simp)
    have hcs : ∀ x ∈ cs, ¬ x = '*' := fun x hx => hpre x (by simp [hx])
    simp only [List.cons_append, searchAnsArchive]
    rw [matchAnsArchiveAt_ne_star _ hc]
    exact ih hcs

/-- **C1 counterexample.** The claim covers both cited parsers, but the
GUI parser's pattern `\*\*Ans(?:wer)?\*\*:` only accepts the colon outside
the bold markup: on the authored format `**Answer:** B` it extracts no
answer at all, while the serverless parser extracts `'B'`. -/
theorem c1_counterexample :
    searchAnsArchive "**Answer:** B".toList = none ∧
    searchAnsApi "**Answer:** B".toList = some 'B' := by
  decide

/-- **C1 (amended).** In any tail whose text before the marker contains no
asterisk (so the marker is the leftmost candidate), the serverless parser
(`src/api/index.py`) extracts `'B'` from all three authored formats
`**Answer:** B`, `**Answer**: B` and `**Ans:** B.` — otherwise-identical
tails differing only in the format therefore yield the same letter.  The
GUI parser (`src/archive/main.py`) extracts `'B'` only from the
colon-outside form `**Answer**: B`; the colon-inside forms `**Answer:** B`
and `**Ans:** B.` yield no answer there. -/
theorem c1_amended_answer_tolerance (pre post : List Char)
    (hpre : ∀ c ∈ pre, ¬ c = '*') :
    (searchAnsApi (pre ++ ("**Answer:** B".toList ++ post)) = some 'B' ∧
     searchAnsApi (pre ++ ("**Answer**: B".toList ++ post)) = some 'B' ∧
     searchAnsApi (pre ++ ("**Ans:** B.".toList ++ post)) = some 'B') ∧
    (searchAnsArchive (pre ++ ("**Answer**: B".toList ++ post)) = some 'B') ∧
    (searchAnsArchive "**Answer:** B".toList = none ∧
     searchAnsArchive "**Ans:** B.".toList = none) := by
  refine ⟨⟨?_, ?_, ?_⟩, ?_, by decide, by decide⟩
  · rw [searchAnsApi_skip pre _ hpre]
    rfl
  · rw [searchAnsApi_skip pre _ hpre]
    rfl
  · rw [searchAnsApi_skip pre _ hpre]
    rfl
  · rw [searchAnsArchive_skip pre _ hpre]
    rfl

/-- **C1 witness.** -/
theorem c1_witness :
    (searchAnsApi ("The tail. ".toList ++ ("**Answer:** B".toList ++ "\nmore".toList)) = some 'B' ∧
     searchAnsApi ("The tail. ".toList ++ ("**Answer**: B".toList ++ "\nmore".toList)) = some 'B' ∧
     searchAnsApi ("The tail. ".toList ++ ("**Ans:** B.".toList ++ "\nmore".toList)) = some 'B') ∧
    (searchAnsArchive ("The tail. ".toList ++ ("**Answer**: B".toList ++ "\nmore".toList)) = some 'B') ∧
    (searchAnsArchive "**Answer:** B".toList = none ∧
     searchAnsArchive "**Ans:** B.".toList = none) :=
  c1_amended_answer_tolerance "The tail. ".toList "\nmore".toList (by decide)

/-! ## Claim C6: investigations-marker tolerance -/

theorem matchInvAt_ne_star {c : Char} (cs : List Char) (h : ¬ c = '*') :
    matchInvAt (c :: cs) = none := by
  unfold matchInvAt
  rw [show ("**".toList : List Char) = ['*', '*'] from rfl]
  rw [eatLit_cons_ne _ _ h]

theorem searchInv_skip (pre : List Char) (s : List Char)
    (hpre : ∀ c ∈ pre, ¬ c = '*') :
    searchInv (pre ++ s) = searchInv s := by
  induction pre with
  | nil => rfl
  | cons c cs ih =>
    have hc := hpre c (by simp)
    have hcs : ∀ x ∈ cs, ¬ x = '*' := fun x hx => hpre x (by simp [hx])
    simp only [List.cons_append, searchInv]
    rw [matchInvAt_ne_star _ hc]
    simp only [Option.isSome_none, Bool.false_or]
    exact ih hcs

theorem eatLitCI_exact :
    ∀ (lit w t : List Char), lowerList w = lit → eatLitCI lit (w ++ t) = some t := by
  intro lit
  induction lit with
  | nil =>
    intro w t h
    have hw : w = [] := by simpa [lowerList] using h
    subst hw
    rfl
  | cons c cs ih =>
    intro w t h
    cases w with
    | nil => simp [lowerList] at h
    | cons d ds =>
      simp only [lowerList, List.map_cons, List.cons.injEq] at h
      simp only [List.cons_append, eatLitCI]
      rw [if_pos (by simp [h.1])]
      exact ih ds t (by simpa [lowerList] using h.2)

theorem matchInvAt_marker (w13 optS colon rest : List Char)
    (hw : lowerList w13 = "investigation".toList)
    (hopt : optS = [] ∨ ∃ c, optS = [c] ∧ c.toLower = 's')
    (hcol : colon = ":**".toList ∨ colon = "**:".toList) :
    matchInvAt ('*' :: '*' :: (w13 ++ (optS ++ (colon ++ rest)))) =
      some (rest.dropWhile isSpaceB) := by
  have hskip : skipOptCI "s".toList (optS ++ (colon ++ rest)) = colon ++ rest := by
    rcases hopt with h | ⟨c, hc, hlow⟩
    · subst h
      rw [List.nil_append]
      unfold skipOptCI
      rcases hcol with h | h <;> subst h <;> rfl
    · subst hc
      unfold skipOptCI
      rw [show ("s".toList : List Char) = ['s'] from rfl]
      simp only [List.cons_append, eatLitCI]
      rw [if_pos (by simp [hlow])]
      simp [eatLitCI]
  have hcol2 : eatColonInv (colon ++ rest) = some rest := by
    rcases hcol with h | h <;> subst h <;> rfl
  unfold matchInvAt
  rw [show ("**".toList : List Char) = ['*', '*'] from rfl]
  simp only [show ∀ X : List Char, eatLit ['*', '*'] ('*' :: '*' :: X) = some X
      from fun X => rfl,
    eatLitCI_exact _ _ _ hw, hskip, hcol2]

theorem subInvWithFuel_no_star (repl : List Char) :
    ∀ fuel (s : List Char), s.length ≤ fuel → (∀ c ∈ s, ¬ c = '*') →
      subInvWithFuel repl fuel s = s := by
  intro fuel
  induction fuel with
  | zero =>
    intro s hlen _
    have : s = [] := by
      cases s with
      | nil => rfl
      | cons c cs => simp at hlen
    subst this
    rfl
  | succ fuel ih =>
    intro s hlen hs
    cases s with
    | nil => rfl
    | cons c cs =>
      have hc := hs c (by simp)
      have hcs : ∀ x ∈ cs, ¬ x = '*' := fun x hx => hs x (by simp [hx])
      simp only [subInvWithFuel]
      rw [matchInvAt_ne_star _ hc]
      rw [ih cs (by simpa using hlen) hcs]

theorem subInvWithFuel_marker (w13 optS colon rest : List Char)
    (hrest : ∀ c ∈ rest, ¬ c = '*')
    (hw : lowerList w13 = "investigation".toList)
    (hopt : optS = [] ∨ ∃ c, optS = [c] ∧ c.toLower = 's')
    (hcol : colon = ":**".toList ∨ colon = "**:".toList) :
    ∀ (pre : List Char) fuel,
      (pre ++ ('*' :: '*' :: (w13 ++ (optS ++ (colon ++ rest))))).length ≤ fuel →
      (∀ c ∈ pre, ¬ c = '*') →
      subInvWithFuel [] fuel (pre ++ ('*' :: '*' :: (w13 ++ (optS ++ (colon ++ rest))))) =
        pre ++ rest.dropWhile isSpaceB := by
  intro pre
  induction pre with
  | nil =>
    intro fuel hlen _
    cases fuel with
    | zero => simp at hlen
    | succ fuel =>
      rw [List.nil_append] at hlen ⊢
      simp only [subInvWithFuel]
      rw [matchInvAt_marker _ _ _ _ hw hopt hcol]
      have hdlen : (rest.dropWhile isSpaceB).length ≤ fuel := by
        have h1 := dropWhile_length_le isSpaceB rest
        simp at hlen
        omega
      have hdstar : ∀ c ∈ rest.dropWhile isSpaceB, ¬ c = '*' :=
        fun c hc => hrest c ((List.dropWhile_sublist _).subset hc)
      exact subInvWithFuel_no_star [] fuel _ hdlen hdstar
  | cons c cs ih =>
    intro fuel hlen hpre
    have hc := hpre c (by simp)
    have hcs : ∀ x ∈ cs, ¬ x = '*' := fun x hx => hpre x (by simp [hx])
    cases fuel with
    | zero => simp at hlen
    | succ fuel =>
      simp only [List.cons_append, subInvWithFuel]
      rw [matchInvAt_ne_star _ hc]
      exact congrArg (List.cons c) (ih fuel (by simpa using hlen) hcs)

/-- **C6 counterexample.** Two blocks identical except that the marker is
written `**Investigations:**` in one and `**Investigations**:` in the other
— but whose preceding text contains an asterisked fragment
(`xx**Investigations:`) — extract *different* investigations content: the
pattern's first substitution consumes the fragment together with the
marker's opening bold, leaving a different residue in each variant. -/
theorem c6_counterexample :
    (appParseQuestion
      "### 1. T\nScen\n\nxx**Investigations:**Investigations:** B".toList "S".toList).map
        (fun q => q.investigations) = some "xxInvestigations:** B".toList ∧
    (appParseQuestion
      "### 1. T\nScen\n\nxx**Investigations:**Investigations**: B".toList "S".toList).map
        (fun q => q.investigations) = some "xxInvestigations**: B".toList := by
  decide

/-- **C6 (amended).** Provided the text surrounding the marker contains no
asterisk (so no pattern match overlaps the marker), the investigations
extraction of `src/app.py` lines 80-89 yields the same content — namely the
pre-marker text followed by the post-marker text with leading whitespace
dropped, stripped — for *every* variant of the marker: any letter case of
`Investigation`, optional plural `s`, and the colon inside (`:**`) or
outside (`**:`) the closing bold. -/
theorem c6_amended_investigations_tolerance
    (pre w13 optS colon rest : List Char)
    (hpre : ∀ c ∈ pre, ¬ c = '*') (hrest : ∀ c ∈ rest, ¬ c = '*')
    (hw : lowerList w13 = "investigation".toList)
    (hopt : optS = [] ∨ ∃ c, optS = [c] ∧ c.toLower = 's')
    (hcol : colon = ":**".toList ∨ colon = "**:".toList) :
    extractInvApp (pre ++ ('*' :: '*' :: (w13 ++ (optS ++ (colon ++ rest))))) =
      some (pythonStrip (pre ++ rest.dropWhile isSpaceB)) := by
  unfold extractInvApp
  have hsearch : searchInv (pre ++ ('*' :: '*' :: (w13 ++ (optS ++ (colon ++ rest)))))
      = true := by
    rw [searchInv_skip pre _ hpre]
    simp only [searchInv]
    rw [matchInvAt_marker _ _ _ _ hw hopt hcol]
    simp
  rw [if_pos hsearch]
  unfold subInvWith
  rw [subInvWithFuel_marker _ _ _ _ hrest hw hopt hcol pre _ (Nat.le_refl _) hpre]

/-- **C6 witness.** -/
theorem c6_witness :
    extractInvApp ("xx ".toList ++ ('*' :: '*' :: ("INVESTIGATION".toList ++
      (['s'] ++ ("**:".toList ++ "  ECG here. ".toList))))) =
      some (pythonStrip ("xx ".toList ++ "  ECG here. ".toList.dropWhile isSpaceB)) :=
  c6_amended_investigations_tolerance "xx ".toList "INVESTIGATION".toList ['s']
    "**:".toList "  ECG here. ".toList (by decide) (by decide) (by decide)
    (Or.inr ⟨'s', rfl, by decide⟩) (Or.inr rfl)

/-! ## C9: in-question specialty override (`src/archive/main.py` lines 937, 1138-1139) -/

/-- A block carrying a bold in-question specialty marker. -/
def c9BlockBold : List Char :=
  "### 1. T\nScen\n\n**Specialty**: Cardiology\nTail?".toList

/-- A block carrying a `## Specialty:` in-question marker. -/
def c9BlockHash : List Char :=
  "### 4. T\nScen\n\n## Specialty: Renal\nTail?".toList

/-- A block whose in-question specialty marker captures only whitespace. -/
def c9BlockEmptyVal : List Char :=
  "### 2. T\nScen\n\n**Specialty**:".toList

/-- A block with no in-question specialty marker. -/
def c9BlockNoMarker : List Char :=
  "### 3. T\nScen body".toList

set_option maxHeartbeats 3200000 in
/-- **C9.** Every question record produced by the GUI-variant parser
`archiveParseQuestion` carries as specialty the stripped capture of the
in-question marker `(?:\*\*Specialty\*\*|## Specialty):\s*(.*?)(?=\n|$)` when
the block contains one, and the caller-supplied specialty only otherwise, with
`"Uncategorized"` substituted when the resulting value is empty.  The concrete
template blocks instantiate the override (`**Specialty**:` and `## Specialty:`
forms), the empty-capture default, and the marker-free fallback, each for every
caller-supplied specialty `sp`. -/
theorem c9_specialty_override :
    (∀ (block sp : List Char) (q : ArchiveQuestion),
      archiveParseQuestion block sp = some q →
      q.specialty =
        (fun sv => if sv.isEmpty then "Uncategorized".toList else sv)
          (match searchSpecInQ block with
            | some v => pythonStrip v
            | none => sp)) ∧
    (∀ sp : List Char, (archiveParseQuestion c9BlockBold sp).map
      ArchiveQuestion.specialty = some "Cardiology".toList) ∧
    (∀ sp : List Char, (archiveParseQuestion c9BlockHash sp).map
      ArchiveQuestion.specialty = some "Renal".toList) ∧
    (∀ sp : List Char, (archiveParseQuestion c9BlockEmptyVal sp).map
      ArchiveQuestion.specialty = some "Uncategorized".toList) ∧
    (∀ sp : List Char, (archiveParseQuestion c9BlockNoMarker sp).map
      ArchiveQuestion.specialty =
      some (if sp.isEmpty then "Uncategorized".toList else sp)) := by
  refine ⟨?_, fun sp => rfl, fun sp => rfl, fun sp => rfl, fun sp => rfl⟩
  intro block sp q h
  unfold archiveParseQuestion at h
  split at h
  · exact absurd h (by simp)
  split at h
  · exact absurd h (by simp)
  split at h
  · exact absurd h (by simp)
  dsimp only at h
  injection h with h'
  subst h'
  rfl

end MLAQuiz
